import Mathlib

/-
  Verification development for the cloud-hypervisor tracer crate
  (src/tracer/src/tracer_relative.rs, src/tracer/src/tracer_noop_relative.rs,
  src/tracer/src/lib.rs).

  Modelling conventions:
  - Rust Instant values are natural numbers of nanoseconds; Instant::now() is
    passed as an explicit parameter wherever the source reads the clock.
  - Duration values are natural numbers of nanoseconds.
  - std HashMap is an association list with lookup and insert operations.
  - AtomicU64 counters are natural numbers reduced modulo 2 ^ 64 at each
    wrapping fetch_add / fetch_sub, mirroring the wrapping semantics of the
    Rust atomics.
  - The calling thread is identified by its name string, passed explicitly;
    an unnamed thread passes the empty string (current.name().unwrap_or("")).
  - A Rust panic is modelled as Option.none on the operations that can panic.
-/

/-- The modulus of u64 arithmetic, 2 ^ 64. -/
def U64_MOD : Nat := 18446744073709551616

/-- Association-list model of std HashMap lookup (HashMap::get). -/
def hashGet {α : Type} : List (String × α) → String → Option α
  | [], _ => none
  | (k, v) :: rest, key => if k = key then some v else hashGet rest key

/-- Association-list model of std HashMap insertion (HashMap::insert):
replaces the value of an existing key, otherwise adds a new entry. -/
def hashInsert {α : Type} : List (String × α) → String → α → List (String × α)
  | [], key, v => [(key, v)]
  | (k, w) :: rest, key, v =>
      if k = key then (key, v) :: rest else (k, w) :: hashInsert rest key v

/-- One trace record, mirroring struct TraceEvent of tracer_relative.rs:
timestamp (Duration since tracer start), event name, end_timestamp (u128
absolute monotonic nanoseconds, 0 for point events), depth (u64), and the
optional size (u64) and plug payload fields. -/
structure TraceEvent where
  timestamp : Nat
  event : String
  end_timestamp : Nat
  depth : Nat
  size : Option Nat
  plug : Option Bool
deriving Repr, DecidableEq

/-- The process-wide tracer state, mirroring struct Tracer of
tracer_relative.rs: the per-thread event store, the per-thread depth
registry, and the start instant. -/
structure Tracer where
  events : List (String × List TraceEvent)
  thread_depths : List (String × Nat)
  start : Nat
deriving Repr, DecidableEq

/-- Tracer::new(), with Instant::now() passed in. -/
def Tracer.new (now : Nat) : Tracer :=
  { events := [], thread_depths := [], start := now }

/-- Tracer::add_event: push onto the calling thread event sequence, creating
it on first use (the if let Some / else insert branches of the source). -/
def Tracer.add_event (t : Tracer) (thread_name : String) (event : TraceEvent) : Tracer :=
  match hashGet t.events thread_name with
  | some thread_events =>
      { t with events := hashInsert t.events thread_name (thread_events ++ [event]) }
  | none =>
      { t with events := hashInsert t.events thread_name [event] }

/-- Tracer::increase_thread_depth: fetch_add(1) on an existing entry
(wrapping u64), otherwise insert a fresh AtomicU64::new(0) without
incrementing it. -/
def Tracer.increase_thread_depth (t : Tracer) (thread_name : String) : Tracer :=
  match hashGet t.thread_depths thread_name with
  | some depth =>
      { t with thread_depths := hashInsert t.thread_depths thread_name ((depth + 1) % U64_MOD) }
  | none =>
      { t with thread_depths := hashInsert t.thread_depths thread_name 0 }

/-- Tracer::decrease_thread_depth: fetch_sub(1) on an existing entry
(wrapping u64 subtraction, modelled as adding U64_MOD - 1 modulo U64_MOD);
a missing entry panics ("Unmatched decrease"), modelled as none. -/
def Tracer.decrease_thread_depth (t : Tracer) (thread_name : String) : Option Tracer :=
  match hashGet t.thread_depths thread_name with
  | some depth =>
      some { t with thread_depths :=
               hashInsert t.thread_depths thread_name ((depth + (U64_MOD - 1)) % U64_MOD) }
  | none => none

/-- Tracer::thread_depth: load the calling thread counter, defaulting to 0
when the thread has no entry (unwrap_or_default). -/
def Tracer.thread_depth (t : Tracer) (thread_name : String) : Nat :=
  (hashGet t.thread_depths thread_name).getD 0

/-- trace_point_log: append a point event with timestamp now - start,
end_timestamp 0, the current thread depth, and absent size and plug. -/
def trace_point_log (t : Tracer) (thread_name : String) (event : String) (now : Nat) : Tracer :=
  t.add_event thread_name
    { timestamp := now - t.start
      event := event
      end_timestamp := 0
      depth := t.thread_depth thread_name
      size := none
      plug := none }

/-- The scoped guard, mirroring struct TraceBlock: captured start instant,
event name, size and plug. -/
structure TraceBlock where
  start : Nat
  event : String
  size : Nat
  plug : Bool
deriving Repr, DecidableEq

/-- TraceBlock::new: increase the calling thread depth, then capture
Instant::now() and the payload fields. Returns the updated tracer and the
guard. -/
def TraceBlock.new (t : Tracer) (thread_name : String) (event : String)
    (size : Nat) (plug : Bool) (now : Nat) : Tracer × TraceBlock :=
  (t.increase_thread_depth thread_name,
   { start := now, event := event, size := size, plug := plug })

/-- A clock_gettime(CLOCK_MONOTONIC) reading: the tv_sec and tv_nsec fields
of a libc timespec, both of the signed 64-bit type time_t and therefore
modelled as integers (the OS keeps them nonnegative and tv_nsec below one
second for this clock). -/
structure TimeSpec where
  tv_sec : Int
  tv_nsec : Int
deriving Repr, DecidableEq

/-- Wrapping i64 arithmetic: reduce an integer to the representative of its
residue class modulo 2 ^ 64 that lies in the i64 range, as the two's
complement result of a release-build overflow. -/
def wrapI64 (x : Int) : Int :=
  (x + 9223372036854775808) % 18446744073709551616 - 9223372036854775808

/-- The Rust cast of an i64 value to u128 (as u128): reinterpret the two's
complement bits, so a negative value becomes 2 ^ 128 plus the value. -/
def i64_as_u128 (x : Int) : Nat :=
  (x % 340282366920938463463374607431768211456).toNat

/-- monotonic_clock: the source computes ts.tv_sec() * 1_000_000_000 +
ts.tv_nsec() in i64 arithmetic (which wraps on overflow in release builds
and aborts in debug builds; the wrapping result is modelled) and then casts
the i64 result to u128. -/
def monotonic_clock (ts : TimeSpec) : Nat :=
  i64_as_u128 (wrapI64 (wrapI64 (ts.tv_sec * 1000000000) + ts.tv_nsec))

/-- Drop for TraceBlock: build the completed event (timestamp = captured
start minus tracer start, end_timestamp = monotonic clock at exit, depth
read before the decrement, size and plug present), append it, then decrease
the thread depth. clock is the monotonic_clock() value at exit. The result
is none exactly when decrease_thread_depth panics. -/
def TraceBlock.drop (b : TraceBlock) (t : Tracer) (thread_name : String)
    (clock : Nat) : Option Tracer :=
  (t.add_event thread_name
    { timestamp := b.start - t.start
      event := b.event
      end_timestamp := clock
      depth := t.thread_depth thread_name
      size := some b.size
      plug := some b.plug }).decrease_thread_depth thread_name

/-- The serialized report, mirroring struct TraceReport inside Tracer::end:
exactly two fields, duration and events. -/
structure TraceReport where
  duration : Nat
  events : List (String × List TraceEvent)
deriving Repr, DecidableEq

/-- The output path built by Tracer::end:
format!("cloud-hypervisor-\x7b\x7d.virtio-mem-trace", libc::getpid()). -/
def tracer_output_path (pid : Nat) : String :=
  "cloud-hypervisor-" ++ toString pid ++ ".virtio-mem-trace"

/-- Tracer::end, with Instant::now() and getpid() passed in: the file path
written and the report serialized into it (duration = end instant minus
start, events = the full store). File creation, pretty JSON encoding and
the final flush are the I/O boundary; the JSON layout is modelled by
serializeReport below. -/
def Tracer.end' (t : Tracer) (now : Nat) (pid : Nat) : String × TraceReport :=
  (tracer_output_path pid, { duration := now - t.start, events := t.events })

/-- A JSON value, for modelling the serde_json encoding of the report. -/
inductive JsonValue where
  | num (n : Nat)
  | str (s : String)
  | bool (b : Bool)
  | null
  | arr (xs : List JsonValue)
  | obj (fields : List (String × JsonValue))
deriving Repr

/-- Serde encoding of a std Duration of n nanoseconds: secs and nanos. -/
def jsonDuration (n : Nat) : JsonValue :=
  .obj [("secs", .num (n / 1000000000)), ("nanos", .num (n % 1000000000))]

/-- Serde encoding of a TraceEvent, field for field in declaration order;
None serializes as null. -/
def serializeEvent (e : TraceEvent) : JsonValue :=
  .obj [("timestamp", jsonDuration e.timestamp),
        ("event", .str e.event),
        ("end_timestamp", .num e.end_timestamp),
        ("depth", .num e.depth),
        ("size", match e.size with | some n => .num n | none => .null),
        ("plug", match e.plug with | some b => .bool b | none => .null)]

/-- Serde encoding of the TraceReport: a root object with the duration and
events fields in declaration order. -/
def serializeReport (r : TraceReport) : JsonValue :=
  .obj [("duration", jsonDuration r.duration),
        ("events", .obj (r.events.map (fun p => (p.1, .arr (p.2.map serializeEvent)))))]

/-- The field names of a top-level JSON object. -/
def jsonTopFields : JsonValue → List String
  | .obj fields => fields.map Prod.fst
  | _ => []

/-- The event sequence recorded for a thread (empty when absent). -/
def threadEvents (t : Tracer) (name : String) : List TraceEvent :=
  (hashGet t.events name).getD []

/-- The depth field of the most recently appended event of a thread. -/
def lastEventDepth (t : Tracer) (name : String) : Option Nat :=
  (threadEvents t name).getLast?.map TraceEvent.depth

/-- Build-variant surface: the arity of each expansion rule of the scoped
trace form in the active build (tracer_relative.rs): one rule taking event,
size and plug. -/
def trace_relative_scoped_active_arities : List Nat := [3]

/-- The arity of each expansion rule of the scoped trace form in the no-op
build (tracer_noop_relative.rs): one rule taking event and size only. -/
def trace_relative_scoped_noop_arities : List Nat := [2]

/-- The arity of each expansion rule of the point trace form in the active
build: one rule taking the event name. -/
def trace_relative_point_active_arities : List Nat := [1]

/-- The arity of each expansion rule of the point trace form in the no-op
build: one rule taking the event name. -/
def trace_relative_point_noop_arities : List Nat := [1]

/-- A call site with a given number of comma-separated expression arguments
compiles against a form exactly when some expansion rule has that arity. -/
def callCompiles (ruleArities : List Nat) (argCount : Nat) : Bool :=
  ruleArities.contains argCount

/-- Lookup after inserting the same key. -/
theorem hashGet_hashInsert_self {α : Type} (m : List (String × α)) (k : String) (v : α) :
    hashGet (hashInsert m k v) k = some v := by
  induction m with
  | nil => simp [hashInsert, hashGet]
  | cons p rest ih =>
      rcases p with ⟨k0, v0⟩
      by_cases h : k0 = k
      · simp [hashInsert, hashGet, h]
      · simp [hashInsert, hashGet, h, ih]

/-- Lookup of a different key is unchanged by an insert. -/
theorem hashGet_hashInsert_other {α : Type} (m : List (String × α)) (k key : String) (v : α)
    (h : key ≠ k) : hashGet (hashInsert m k v) key = hashGet m key := by
  induction m with
  | nil => simp [hashInsert, hashGet, Ne.symm h]
  | cons p rest ih =>
      rcases p with ⟨k0, v0⟩
      by_cases h0 : k0 = k
      · subst h0
        simp [hashInsert, hashGet, Ne.symm h]
      · by_cases h1 : k0 = key
        · subst h1
          simp [hashInsert, hashGet, h0, h]
        · simp [hashInsert, hashGet, h0, h1, ih]

/-- The last element of a list extended on the right. -/
theorem getLast?_append_singleton {α : Type} (l : List α) (a : α) :
    (l ++ [a]).getLast? = some a := by
  exact List.getLast?_append_cons l a []

/-- add_event appends exactly one event to the calling thread sequence. -/
theorem add_event_self (t : Tracer) (name : String) (e : TraceEvent) :
    hashGet (t.add_event name e).events name = some (threadEvents t name ++ [e]) := by
  cases h : hashGet t.events name with
  | some evs => simp [Tracer.add_event, threadEvents, h, hashGet_hashInsert_self]
  | none => simp [Tracer.add_event, threadEvents, h, hashGet_hashInsert_self]

/-- add_event leaves the sequences of other threads unchanged. -/
theorem add_event_other (t : Tracer) (name other : String) (e : TraceEvent)
    (h : other ≠ name) :
    hashGet (t.add_event name e).events other = hashGet t.events other := by
  cases h0 : hashGet t.events name with
  | some evs => simp [Tracer.add_event, h0, hashGet_hashInsert_other _ _ _ _ h]
  | none => simp [Tracer.add_event, h0, hashGet_hashInsert_other _ _ _ _ h]

/-- add_event does not touch the depth registry. -/
theorem add_event_thread_depths (t : Tracer) (name : String) (e : TraceEvent) :
    (t.add_event name e).thread_depths = t.thread_depths := by
  cases h : hashGet t.events name with
  | some evs => simp [Tracer.add_event, h]
  | none => simp [Tracer.add_event, h]

/-- add_event does not touch the start instant. -/
theorem add_event_start (t : Tracer) (name : String) (e : TraceEvent) :
    (t.add_event name e).start = t.start := by
  cases h : hashGet t.events name with
  | some evs => simp [Tracer.add_event, h]
  | none => simp [Tracer.add_event, h]

/-- increase_thread_depth does not touch the event store. -/
theorem increase_events (t : Tracer) (name : String) :
    (t.increase_thread_depth name).events = t.events := by
  cases h : hashGet t.thread_depths name with
  | some d => simp [Tracer.increase_thread_depth, h]
  | none => simp [Tracer.increase_thread_depth, h]

/-- increase_thread_depth does not touch the start instant. -/
theorem increase_start (t : Tracer) (name : String) :
    (t.increase_thread_depth name).start = t.start := by
  cases h : hashGet t.thread_depths name with
  | some d => simp [Tracer.increase_thread_depth, h]
  | none => simp [Tracer.increase_thread_depth, h]

/-- decrease_thread_depth on an existing entry: the wrapping decrement. -/
theorem decrease_eq (t : Tracer) (name : String) (d : Nat)
    (h : hashGet t.thread_depths name = some d) :
    t.decrease_thread_depth name
      = some { t with thread_depths :=
                 hashInsert t.thread_depths name ((d + (U64_MOD - 1)) % U64_MOD) } := by
  simp [Tracer.decrease_thread_depth, h]

/-- Scenario S2 on a fresh thread w1: begin_scope("outer", 4096, true)
enclosing begin_scope("inner", 64, false), then both guards exit (the inner
one first). Tracer start 0; the instants 10, 20, 30, 40 are the successive
clock readings. -/
def s2_final : Option Tracer :=
  match TraceBlock.new (Tracer.new 0) "w1" "outer" 4096 true 10 with
  | (t1, g1) =>
    match TraceBlock.new t1 "w1" "inner" 64 false 20 with
    | (t2, g2) =>
      match g2.drop t2 "w1" 30 with
      | some t3 => g1.drop t3 "w1" 40
      | none => none

/-- The depth fields of the events recorded for w1 in scenario S2, in append
order. -/
def s2_depths : Option (List Nat) :=
  s2_final.map (fun t => (threadEvents t "w1").map TraceEvent.depth)

/-- Claim C1 counterexample: in scenario S2 the recorded depths are 1 (inner,
appended first) and 0 (outer), not 2 and 1 as the claim states. The fresh
thread inserts a zero counter without incrementing, so the outer guard runs
at counter 0 and the inner guard at counter 1. -/
theorem c1_counterexample : s2_depths = some [1, 0] ∧ s2_depths ≠ some [2, 1] := by
  constructor
  · rfl
  · intro h
    simp [s2_depths, s2_final] at h
    revert h
    decide

/-- Claim C1 (amended): in scenario S2 the two recorded events for w1 are,
in append order, the inner event (event "inner", size 64, plug false,
depth 1) followed by the outer event (event "outer", size 4096, plug true,
depth 0): the inner event is appended first, with depth 1 for the inner
event and depth 0 for the outer event. -/
theorem c1_s2_amended :
    s2_final.map (fun t => (threadEvents t "w1").map
        (fun e => (e.event, e.size, e.plug, e.depth)))
      = some [("inner", some 64, some false, 1), ("outer", some 4096, some true, 0)] := by
  rfl

/-- Claim C2: the point trace form (one argument) and the lifecycle
functions exist in both builds, but a scoped trace call site with the three
arguments of the active build (event, size, plug) does not compile against
the no-op build, whose only rule takes two arguments. -/
theorem c2_scoped_arity_mismatch :
    callCompiles trace_relative_scoped_active_arities 3 = true
    ∧ callCompiles trace_relative_scoped_noop_arities 3 = false
    ∧ callCompiles trace_relative_point_active_arities 1 = true
    ∧ callCompiles trace_relative_point_noop_arities 1 = true := by
  decide

/-- Claim C3: increase on a thread with an existing entry increments the
counter by one (wrapping u64); on a thread with no entry it inserts a new
entry initialized to 0 without incrementing, so the registry reads 0 during
the first scoped block of a newly seen thread, the counter stays at 0 until
the block exits, and the event that the first scoped block records carries
depth 0. -/
theorem c3_increase (t : Tracer) (name ev : String) (sz : Nat) (pl : Bool) (now clock : Nat) :
    hashGet (t.increase_thread_depth name).thread_depths name
      = some (match hashGet t.thread_depths name with
              | some d => (d + 1) % U64_MOD
              | none => 0)
    ∧ (hashGet t.thread_depths name = none →
        (t.increase_thread_depth name).thread_depth name = 0
        ∧ ∃ t2, (TraceBlock.new t name ev sz pl now).2.drop
                  (TraceBlock.new t name ev sz pl now).1 name clock = some t2
            ∧ lastEventDepth t2 name = some 0) := by
  constructor
  · cases h : hashGet t.thread_depths name with
    | some d => simp [Tracer.increase_thread_depth, h, hashGet_hashInsert_self]
    | none => simp [Tracer.increase_thread_depth, h, hashGet_hashInsert_self]
  · intro h
    have hread : (t.increase_thread_depth name).thread_depth name = 0 := by
      simp [Tracer.increase_thread_depth, h, Tracer.thread_depth, hashGet_hashInsert_self]
    refine ⟨hread, ?_⟩
    have hd : hashGet ((t.increase_thread_depth name).add_event name
        { timestamp := now - (t.increase_thread_depth name).start
          event := ev
          end_timestamp := clock
          depth := (t.increase_thread_depth name).thread_depth name
          size := some sz
          plug := some pl }).thread_depths name = some 0 := by
      rw [add_event_thread_depths]
      simp [Tracer.increase_thread_depth, h, hashGet_hashInsert_self]
    refine ⟨_, decrease_eq _ _ 0 hd, ?_⟩
    simp [lastEventDepth, threadEvents, add_event_self, getLast?_append_singleton,
          TraceBlock.new, hread]

/-- Claim C3 witness: on a fresh tracer the thread w has no entry, and after
increase its counter reads 0. -/
theorem c3_increase_witness :
    hashGet (Tracer.new 0).thread_depths "w" = none
    ∧ ((Tracer.new 0).increase_thread_depth "w").thread_depth "w" = 0 :=
  ⟨rfl, ((c3_increase (Tracer.new 0) "w" "e" 1 true 2 3).2 rfl).1⟩

/-- Claim C4: a point trace appends exactly one event to the calling thread
sequence, with end_timestamp 0, absent size and plug, depth equal to the
registry read for that thread, and timestamp equal to the elapsed time from
the tracer start to the call instant; other thread sequences, the depth
registry and the start instant are unchanged. -/
theorem c4_trace_point (t : Tracer) (name ev other : String) (now : Nat)
    (hother : other ≠ name) :
    threadEvents (trace_point_log t name ev now) name
      = threadEvents t name ++
        [{ timestamp := now - t.start
           event := ev
           end_timestamp := 0
           depth := t.thread_depth name
           size := none
           plug := none }]
    ∧ hashGet (trace_point_log t name ev now).events other = hashGet t.events other
    ∧ (trace_point_log t name ev now).thread_depths = t.thread_depths
    ∧ (trace_point_log t name ev now).start = t.start := by
  refine ⟨?_, ?_, ?_, ?_⟩
  · rw [trace_point_log, threadEvents, add_event_self]
    rfl
  · exact add_event_other _ _ _ _ hother
  · exact add_event_thread_depths _ _ _
  · exact add_event_start _ _ _

/-- Claim C4 witness: a concrete point trace on thread w at instant 7. -/
theorem c4_trace_point_witness :
    ("a" : String) ≠ "w"
    ∧ threadEvents (trace_point_log (Tracer.new 0) "w" "E" 7) "w"
        = threadEvents (Tracer.new 0) "w" ++
          [{ timestamp := 7 - (Tracer.new 0).start
             event := "E"
             end_timestamp := 0
             depth := (Tracer.new 0).thread_depth "w"
             size := none
             plug := none }] :=
  ⟨by decide, (c4_trace_point (Tracer.new 0) "w" "E" "a" 7 (by decide)).1⟩

/-- Claim C5: when a scoped guard exits on a thread whose depth entry exists
(which is the case whenever its construction ran), the drop appends exactly
one completed event with timestamp = captured start minus tracer start,
the captured event name, end_timestamp = the monotonic clock reading at
exit, depth = the registry read at exit, size and plug present with the
captured values; afterwards the thread counter is the wrapping decrement of
its previous value. -/
theorem c5_scope_exit (b : TraceBlock) (t : Tracer) (name : String) (clock d : Nat)
    (h : hashGet t.thread_depths name = some d) :
    ∃ t2, b.drop t name clock = some t2
      ∧ threadEvents t2 name
          = threadEvents t name ++
            [{ timestamp := b.start - t.start
               event := b.event
               end_timestamp := clock
               depth := t.thread_depth name
               size := some b.size
               plug := some b.plug }]
      ∧ hashGet t2.thread_depths name = some ((d + (U64_MOD - 1)) % U64_MOD) := by
  have hd : hashGet (t.add_event name
      { timestamp := b.start - t.start
        event := b.event
        end_timestamp := clock
        depth := t.thread_depth name
        size := some b.size
        plug := some b.plug }).thread_depths name = some d := by
    rw [add_event_thread_depths]
    exact h
  refine ⟨_, decrease_eq _ _ d hd, ?_, ?_⟩
  · rw [threadEvents]
    show (hashGet (Tracer.add_event t name _).events name).getD [] = _
    rw [add_event_self]
    rfl
  · show hashGet (hashInsert (Tracer.add_event t name _).thread_depths name _) name = _
    rw [hashGet_hashInsert_self]

/-- A tracer with one registered thread w at depth 5, for the witnesses. -/
def demoTracer5 : Tracer :=
  { events := [], thread_depths := [("w", 5)], start := 0 }

/-- A guard captured at instant 10 for event B with size 64 and plug true. -/
def demoBlock : TraceBlock :=
  { start := 10, event := "B", size := 64, plug := true }

/-- Claim C5 witness: the guard demoBlock exits on thread w of demoTracer5
at clock 30. -/
theorem c5_scope_exit_witness :
    hashGet demoTracer5.thread_depths "w" = some 5
    ∧ ∃ t2, demoBlock.drop demoTracer5 "w" 30 = some t2
        ∧ threadEvents t2 "w"
            = threadEvents demoTracer5 "w" ++
              [{ timestamp := demoBlock.start - demoTracer5.start
                 event := demoBlock.event
                 end_timestamp := 30
                 depth := demoTracer5.thread_depth "w"
                 size := some demoBlock.size
                 plug := some demoBlock.plug }]
        ∧ hashGet t2.thread_depths "w" = some ((5 + (U64_MOD - 1)) % U64_MOD) :=
  ⟨rfl, c5_scope_exit demoBlock demoTracer5 "w" 30 5 rfl⟩

/-- One record-path operation of the tracer, with the clock readings it
consumes: a point trace, a guard construction, or a guard exit. -/
inductive TraceOp where
  | point (name ev : String) (now : Nat)
  | beginScope (name ev : String) (size : Nat) (plug : Bool) (now : Nat)
  | endScope (b : TraceBlock) (name : String) (clock : Nat)
deriving Repr, DecidableEq

/-- Apply one operation to the tracer state; none models a panic. -/
def applyOp (t : Tracer) : TraceOp → Option Tracer
  | .point name ev now => some (trace_point_log t name ev now)
  | .beginScope name ev size plug now => some (TraceBlock.new t name ev size plug now).1
  | .endScope b name clock => b.drop t name clock

/-- Run a sequence of operations, stopping at the first panic. -/
def runOps : List TraceOp → Tracer → Option Tracer
  | [], t => some t
  | op :: rest, t =>
      match applyOp t op with
      | some t2 => runOps rest t2
      | none => none

/-- An operation has a positive monotonic clock reading: scoped exits read
the CLOCK_MONOTONIC value, which is nonzero at any instant after boot. -/
def opClockOk : TraceOp → Bool
  | .endScope _ _ clock => decide (clock ≠ 0)
  | _ => true

/-- The shape invariant of a single event: a nonzero end_timestamp comes
with present size and plug, a zero end_timestamp with absent ones. -/
def eventShapeOk (e : TraceEvent) : Prop :=
  (e.end_timestamp ≠ 0 → e.size.isSome ∧ e.plug.isSome)
  ∧ (e.end_timestamp = 0 → e.size = none ∧ e.plug = none)

/-- The shape invariant over the whole event store. -/
def storeShapeOk (t : Tracer) : Prop :=
  ∀ name evs, hashGet t.events name = some evs → ∀ e ∈ evs, eventShapeOk e

/-- add_event preserves the store invariant when the new event satisfies it. -/
theorem add_event_shapeOk (t : Tracer) (name : String) (e : TraceEvent)
    (ht : storeShapeOk t) (he : eventShapeOk e) : storeShapeOk (t.add_event name e) := by
  intro name2 evs2 h2 x hx
  by_cases hn : name2 = name
  · subst hn
    rw [add_event_self] at h2
    cases h2
    rcases List.mem_append.mp hx with hmem | hmem
    · cases hget : hashGet t.events name2 with
      | some evs0 =>
          refine ht name2 evs0 hget x ?_
          simpa [threadEvents, hget] using hmem
      | none =>
          simp [threadEvents, hget] at hmem
    · rcases List.mem_singleton.mp hmem with rfl
      exact he
  · rw [add_event_other _ _ _ _ hn] at h2
    exact ht name2 evs2 h2 x hx

/-- A step of the record path preserves the store invariant when its clock
reading is admissible. -/
theorem applyOp_shapeOk (t t2 : Tracer) (op : TraceOp) (hop : opClockOk op = true)
    (ht : storeShapeOk t) (happly : applyOp t op = some t2) : storeShapeOk t2 := by
  cases op with
  | point name ev now =>
      cases happly
      exact add_event_shapeOk t name _ ht (by simp [eventShapeOk])
  | beginScope name ev size plug now =>
      cases happly
      intro name2 evs2 h2
      rw [TraceBlock.new] at h2
      simp only [increase_events] at h2
      exact ht name2 evs2 h2
  | endScope b name clock =>
      have hclock : clock ≠ 0 := by simpa [opClockOk] using hop
      have hstep : storeShapeOk (t.add_event name
          { timestamp := b.start - t.start
            event := b.event
            end_timestamp := clock
            depth := t.thread_depth name
            size := some b.size
            plug := some b.plug }) :=
        add_event_shapeOk t name _ ht (by simp [eventShapeOk, hclock])
      have happly2 : (t.add_event name
          { timestamp := b.start - t.start
            event := b.event
            end_timestamp := clock
            depth := t.thread_depth name
            size := some b.size
            plug := some b.plug }).decrease_thread_depth name = some t2 := happly
      clear happly
      revert happly2
      cases hget : hashGet (t.add_event name
          { timestamp := b.start - t.start
            event := b.event
            end_timestamp := clock
            depth := t.thread_depth name
            size := some b.size
            plug := some b.plug }).thread_depths name with
      | some d =>
          intro happly
          rw [decrease_eq _ _ d hget] at happly
          cases happly
          intro name2 evs2 h2
          exact hstep name2 evs2 h2
      | none =>
          intro happly
          rw [Tracer.decrease_thread_depth, hget] at happly
          cases happly

/-- Running admissible operations preserves the store invariant. -/
theorem runOps_shapeOk (ops : List TraceOp) (t : Tracer) (ht : storeShapeOk t)
    (hc : ∀ op ∈ ops, opClockOk op = true) (t2 : Tracer)
    (hrun : runOps ops t = some t2) : storeShapeOk t2 := by
  induction ops generalizing t with
  | nil =>
      rw [runOps] at hrun
      cases hrun
      exact ht
  | cons op rest ih =>
      rw [runOps] at hrun
      revert hrun
      cases happly : applyOp t op with
      | some tmid =>
          intro hrun
          refine ih tmid ?_ (fun o ho => hc o (List.mem_cons_of_mem _ ho)) hrun
          exact applyOp_shapeOk t tmid op (hc op (List.mem_cons_self op rest)) ht happly
      | none => intro hrun; cases hrun

/-- Claim C6: for every TraceEvent in the event store after any sequence of
record operations from a fresh tracer, in which every scope exit reads a
nonzero monotonic clock, a nonzero end_timestamp comes with present size
and plug and a zero end_timestamp comes with both absent. Point events
write end_timestamp 0 with none payloads and scope exits write the clock
with some payloads, so the invariant holds of every event ever appended. -/
theorem c6_event_shape_invariant (ops : List TraceOp) (startNow : Nat)
    (hc : ∀ op ∈ ops, opClockOk op = true) (t2 : Tracer)
    (hrun : runOps ops (Tracer.new startNow) = some t2) :
    ∀ name evs, hashGet t2.events name = some evs →
      ∀ e ∈ evs,
        (e.end_timestamp ≠ 0 → e.size.isSome ∧ e.plug.isSome)
        ∧ (e.end_timestamp = 0 → e.size = none ∧ e.plug = none) := by
  have h0 : storeShapeOk (Tracer.new startNow) := by
    intro name evs h
    rw [Tracer.new] at h
    cases h
  exact runOps_shapeOk ops (Tracer.new startNow) h0 hc t2 hrun

/-- A demonstration run for the C6 witness: a scoped block around nothing,
then a point event, on thread w. -/
def demoOps : List TraceOp :=
  [TraceOp.beginScope "w" "outer" 4096 true 10,
   TraceOp.endScope { start := 10, event := "outer", size := 4096, plug := true } "w" 30,
   TraceOp.point "w" "P" 40]

/-- The tracer state after the demonstration run. -/
def demoRun : Tracer := (runOps demoOps (Tracer.new 0)).getD (Tracer.new 0)

/-- The events of thread w after the demonstration run. -/
def demoRunEvents : List TraceEvent := threadEvents demoRun "w"

/-- The first event of the demonstration run. -/
def demoEvent : TraceEvent :=
  demoRunEvents.headD
    { timestamp := 0, event := "", end_timestamp := 0, depth := 0, size := none, plug := none }

/-- Claim C6 witness: the demonstration run satisfies the clock condition
and its first recorded event satisfies the shape invariant. -/
theorem c6_event_shape_witness :
    (∀ op ∈ demoOps, opClockOk op = true)
    ∧ ((demoEvent.end_timestamp ≠ 0 → demoEvent.size.isSome ∧ demoEvent.plug.isSome)
       ∧ (demoEvent.end_timestamp = 0 → demoEvent.size = none ∧ demoEvent.plug = none)) :=
  ⟨by decide,
   c6_event_shape_invariant demoOps 0 (by decide) demoRun rfl "w" demoRunEvents rfl
     demoEvent (by decide)⟩

/-- Claim C7: the finalize operation produces the file path
cloud-hypervisor-<pid>.virtio-mem-trace with the numeric process id, and a
report whose root object has exactly the two fields duration (elapsed from
start to the end instant) and events (the per-thread mapping). The pretty
printing and the flush of the created file are the I/O boundary of the
model. -/
theorem c7_end_report (t : Tracer) (now pid : Nat) :
    (t.end' now pid).1 = "cloud-hypervisor-" ++ toString pid ++ ".virtio-mem-trace"
    ∧ (t.end' now pid).2.duration = now - t.start
    ∧ (t.end' now pid).2.events = t.events
    ∧ jsonTopFields (serializeReport (t.end' now pid).2) = ["duration", "events"] :=
  ⟨rfl, rfl, rfl, rfl⟩

/-- Claim C8: decrease on a thread with no registry entry panics (modelled
as none, the Unmatched decrease panic of the source); on a thread with an
entry it decrements the counter (wrapping u64) and touches nothing else. -/
theorem c8_decrease (t : Tracer) (name : String) :
    (hashGet t.thread_depths name = none → t.decrease_thread_depth name = none)
    ∧ ∀ d, hashGet t.thread_depths name = some d →
        ∃ t2, t.decrease_thread_depth name = some t2
          ∧ hashGet t2.thread_depths name = some ((d + (U64_MOD - 1)) % U64_MOD)
          ∧ t2.events = t.events ∧ t2.start = t.start := by
  constructor
  · intro h
    simp [Tracer.decrease_thread_depth, h]
  · intro d h
    exact ⟨_, decrease_eq t name d h, hashGet_hashInsert_self _ _ _, rfl, rfl⟩

/-- Claim C8 witness: decrease on the registered thread w of demoTracer5. -/
theorem c8_decrease_witness :
    hashGet demoTracer5.thread_depths "w" = some 5
    ∧ ∃ t2, demoTracer5.decrease_thread_depth "w" = some t2
        ∧ hashGet t2.thread_depths "w" = some ((5 + (U64_MOD - 1)) % U64_MOD)
        ∧ t2.events = demoTracer5.events ∧ t2.start = demoTracer5.start :=
  ⟨rfl, (c8_decrease demoTracer5 "w").2 5 rfl⟩

/-- wrapI64 is the identity on values already in the i64 range. -/
theorem wrapI64_eq_self (x : Int) (hlo : -9223372036854775808 ≤ x)
    (hhi : x ≤ 9223372036854775807) : wrapI64 x = x := by
  unfold wrapI64
  omega

/-- The u128 cast is the identity on nonnegative in-range i64 values. -/
theorem i64_as_u128_eq_self (x : Int) (h0 : 0 ≤ x) (hhi : x ≤ 9223372036854775807) :
    (i64_as_u128 x : Int) = x := by
  unfold i64_as_u128
  omega

/-- On a reading for which the i64 computation does not overflow, the
computed clock value is exactly tv_sec times ten to the ninth plus
tv_nsec. -/
theorem monotonic_clock_inrange (ts : TimeSpec) (hn : 0 ≤ ts.tv_nsec)
    (hs : 0 ≤ ts.tv_sec)
    (hb : ts.tv_sec * 1000000000 + ts.tv_nsec ≤ 9223372036854775807) :
    (monotonic_clock ts : Int) = ts.tv_sec * 1000000000 + ts.tv_nsec := by
  unfold monotonic_clock
  have hmul0 : 0 ≤ ts.tv_sec * 1000000000 := mul_nonneg hs (by norm_num)
  rw [wrapI64_eq_self (ts.tv_sec * 1000000000) (by omega) (by omega)]
  rw [wrapI64_eq_self (ts.tv_sec * 1000000000 + ts.tv_nsec) (by omega) (by omega)]
  exact i64_as_u128_eq_self _ (by omega) (by omega)

/-- Claim C9: for clock readings on which the i64 computation of the source
does not overflow (tv_sec * 10 ^ 9 + tv_nsec at most the i64 maximum,
which CLOCK_MONOTONIC, counting from boot, only leaves after about 292
years of uptime), monotonic_clock returns exactly tv_sec times ten to the
ninth plus tv_nsec as an unsigned 128-bit value, and readings taken from a
non-decreasing, valid sequence of clock values yield non-decreasing
results. -/
theorem c9_monotonic_clock (ts1 ts2 : TimeSpec)
    (hn1 : 0 ≤ ts1.tv_nsec ∧ ts1.tv_nsec < 1000000000)
    (hn2 : 0 ≤ ts2.tv_nsec ∧ ts2.tv_nsec < 1000000000)
    (hs1 : 0 ≤ ts1.tv_sec ∧ ts1.tv_sec * 1000000000 + ts1.tv_nsec ≤ 9223372036854775807)
    (hs2 : 0 ≤ ts2.tv_sec ∧ ts2.tv_sec * 1000000000 + ts2.tv_nsec ≤ 9223372036854775807)
    (hmono : ts1.tv_sec < ts2.tv_sec ∨ (ts1.tv_sec = ts2.tv_sec ∧ ts1.tv_nsec ≤ ts2.tv_nsec)) :
    (monotonic_clock ts1 : Int) = ts1.tv_sec * 1000000000 + ts1.tv_nsec
    ∧ monotonic_clock ts1 < 340282366920938463463374607431768211456
    ∧ monotonic_clock ts1 ≤ monotonic_clock ts2 := by
  obtain ⟨hn1a, hn1b⟩ := hn1
  obtain ⟨hn2a, hn2b⟩ := hn2
  obtain ⟨hs1a, hs1b⟩ := hs1
  obtain ⟨hs2a, hs2b⟩ := hs2
  have h1 := monotonic_clock_inrange ts1 hn1a hs1a hs1b
  have h2 := monotonic_clock_inrange ts2 hn2a hs2a hs2b
  refine ⟨h1, by omega, ?_⟩
  rcases hmono with hlt | ⟨hseq, hnle⟩
  · omega
  · omega

/-- Claim C9 witness: two concrete in-range readings one nanosecond apart. -/
theorem c9_monotonic_clock_witness :
    (0 ≤ (⟨5, 7⟩ : TimeSpec).tv_nsec ∧ (⟨5, 7⟩ : TimeSpec).tv_nsec < 1000000000)
    ∧ monotonic_clock ⟨5, 7⟩ ≤ monotonic_clock ⟨5, 8⟩ :=
  ⟨by decide,
   (c9_monotonic_clock ⟨5, 7⟩ ⟨5, 8⟩ (by decide) (by decide) (by decide) (by decide)
     (by decide)).2.2⟩

/-- The last event appended by a point trace carries the registry read of
the calling thread. -/
theorem lastEventDepth_trace_point (t : Tracer) (name ev : String) (now : Nat) :
    lastEventDepth (trace_point_log t name ev now) name = some (t.thread_depth name) := by
  simp [lastEventDepth, threadEvents, trace_point_log, add_event_self,
        getLast?_append_singleton]

/-- Claim C10: on a thread not previously seen by the registry, one balanced
begin-scope and exit-scope pair does not abort: the exit decrements the
freshly inserted zero counter, which wraps modulo 2 ^ 64 and leaves
18446744073709551615 in the registry, and a subsequent point event on that
thread records depth 2 ^ 64 - 1. -/
theorem c10_depth_wrap (t : Tracer) (name ev ev2 : String) (sz : Nat) (pl : Bool)
    (now clock now2 : Nat) (h : hashGet t.thread_depths name = none) :
    ∃ t2, (TraceBlock.new t name ev sz pl now).2.drop
            (TraceBlock.new t name ev sz pl now).1 name clock = some t2
      ∧ hashGet t2.thread_depths name = some (U64_MOD - 1)
      ∧ lastEventDepth (trace_point_log t2 name ev2 now2) name = some (U64_MOD - 1) := by
  have hd : hashGet ((t.increase_thread_depth name).add_event name
      { timestamp := now - (t.increase_thread_depth name).start
        event := ev
        end_timestamp := clock
        depth := (t.increase_thread_depth name).thread_depth name
        size := some sz
        plug := some pl }).thread_depths name = some 0 := by
    rw [add_event_thread_depths]
    simp [Tracer.increase_thread_depth, h, hashGet_hashInsert_self]
  have hwrap : (0 + (U64_MOD - 1)) % U64_MOD = U64_MOD - 1 := by decide
  refine ⟨_, decrease_eq _ _ 0 hd, ?_, ?_⟩
  · rw [hwrap]
    exact hashGet_hashInsert_self _ _ _
  · rw [lastEventDepth_trace_point]
    simp [Tracer.thread_depth, hwrap, hashGet_hashInsert_self]

/-- Claim C10 witness: the balanced pair and the subsequent point event on
the fresh thread w of a fresh tracer. -/
theorem c10_depth_wrap_witness :
    hashGet (Tracer.new 0).thread_depths "w" = none
    ∧ ∃ t2, (TraceBlock.new (Tracer.new 0) "w" "S" 64 true 10).2.drop
              (TraceBlock.new (Tracer.new 0) "w" "S" 64 true 10).1 "w" 30 = some t2
        ∧ hashGet t2.thread_depths "w" = some (U64_MOD - 1)
        ∧ lastEventDepth (trace_point_log t2 "w" "P" 40) "w" = some (U64_MOD - 1) :=
  ⟨rfl, c10_depth_wrap (Tracer.new 0) "w" "S" "P" 64 true 10 30 40 rfl⟩
